import Mathlib

/-!
Verification of the MusicLED wavelet BPM detector against its
natural-language specification.

The embedding models `src/wavelet_bpm_detector.h` (class `WaveletBPMDetector`)
and the constructor of `src/audio_data.cpp`.  C++ `double` values are embedded
as exact rationals (`ℚ`), C++ `int` values as `ℤ`/`ℕ`, and `std::vector<double>`
as `List ℚ`.  A C-style cast from `double` to `int` truncates toward zero and is
modelled by `cppIntTrunc`.  Out-of-bounds vector stores (undefined behaviour in
the C++ source) are modelled totally: the store is dropped and a flag records
that the out-of-bounds branch was taken.
-/

set_option maxRecDepth 8000

namespace MusicLED

/-- Truncation of a rational toward zero, the semantics of a C++ cast from
`double` to `int` (and of assigning a `double` into an `int` accumulator). -/
def cppIntTrunc (q : ℚ) : ℤ :=
  q.num.tdiv (q.den : ℤ)

/-- Value of the C constant `DBL_MIN` (the smallest positive normalized IEEE-754
double), used as the seed of the running maximum in `detectPeak`. -/
def DBL_MIN : ℚ := mkRat 1 (2 ^ 1022)

/-- Embedding of `WaveletBPMDetector::undersample`.  The C++ body is

    int length = data.size();
    std::vector<double> result(length / pace);
    for (int i = 0, j = 0; i < length; ++i, j += pace) {
        result[i] = data[i];
    }

The loop variable `j` is advanced by `pace` but never read.  The loop index `i`
runs over the whole input while `result` only has `length / pace` slots, so the
store `result[i] = data[i]` goes out of bounds as soon as `i ≥ length / pace`.
The embedding returns the result list (out-of-bounds stores dropped) together
with a `Bool` that is `true` iff the out-of-bounds store branch was taken. -/
def undersampleImpl (data : List ℚ) (pace : ℕ) : List ℚ × Bool :=
  (List.range data.length).foldl
    (fun st i =>
      if i < st.1.length then (st.1.set i (data.getD i 0), st.2) else (st.1, true))
    (List.replicate (data.length / pace) 0, false)

/-- The vector returned by `WaveletBPMDetector::undersample`. -/
def undersample (data : List ℚ) (pace : ℕ) : List ℚ :=
  (undersampleImpl data pace).1

/-- Downsampling as the specification describes it (true strided decimation,
`result[i] = data[i * pace]`, output length `⌊len / pace⌋`).  This follows the
wording of the spec, for comparison with the source's `undersample`. -/
def undersampleSpec (data : List ℚ) (pace : ℕ) : List ℚ :=
  (List.range (data.length / pace)).map (fun i => data.getD (i * pace) 0)

/-- Embedding of `WaveletBPMDetector::abs`: full-wave rectification, replacing
each entry by its absolute value. -/
def absVec (data : List ℚ) : List ℚ :=
  data.map (fun v => |v|)

/-- The accumulator of `std::accumulate(data.begin(), data.end(), 0)` in
`WaveletBPMDetector::normalize`.  The literal `0` makes the accumulator an
`int`, so every partial sum is truncated back to an integer after each
addition.  (Signed overflow of the C++ `int` is not modelled; the accumulator
is an unbounded integer.) -/
def accumInt (data : List ℚ) : ℤ :=
  data.foldl (fun acc x => cppIntTrunc ((acc : ℚ) + x)) 0

/-- The mean computed by `WaveletBPMDetector::normalize`: the integer-truncated
accumulated sum divided by the (real-valued) length. -/
def meanOf (data : List ℚ) : ℚ :=
  (accumInt data : ℚ) / (data.length : ℚ)

/-- Embedding of `WaveletBPMDetector::normalize`: subtract `meanOf data` from
every element. -/
def normalize (data : List ℚ) : List ℚ :=
  data.map (fun v => v - meanOf data)

/-- Normalization as the specification describes it: the arithmetic mean is
accumulated in real-valued arithmetic from a real-valued zero seed.  This
follows the wording of the spec, for comparison with the source's
`normalize`. -/
def normalizeSpec (data : List ℚ) : List ℚ :=
  data.map (fun v => v - data.sum / (data.length : ℚ))

/-- C1: the code's downsampling is not strided decimation.  On input
`[1,2,3,4,5,6]` with pace 2 the reference `undersample` copies the first three
samples contiguously, returning `[1,2,3]`, while the decimation described by
the claim returns `[1,3,5]`. -/
theorem undersample_copies_contiguously :
    undersample [1, 2, 3, 4, 5, 6] 2 = [1, 2, 3] ∧
    undersampleSpec [1, 2, 3, 4, 5, 6] 2 = [1, 3, 5] ∧
    ([1, 2, 3] : List ℚ) ≠ [1, 3, 5] := by
  refine ⟨by with_unfolding_all decide, by with_unfolding_all decide, by with_unfolding_all decide⟩

/-- C10: the out-of-bounds store branch of `undersample` is reachable.  On an
input of length 6 with pace 2 the loop runs `i = 0, …, 5` while the result only
has `6 / 2 = 3` slots, so the iterations `i = 3, 4, 5` store out of bounds. -/
theorem undersample_oob_store :
    (undersampleImpl [1, 2, 3, 4, 5, 6] 2).2 = true := by
  with_unfolding_all decide

/-- C2: `normalize` accumulates through an integer accumulator, so fractional
contributions are truncated away.  On input `[1/2, 1/2]` the truncated sum is
`0`, the computed mean is `0`, and the output is `[1/2, 1/2]` whose sum is `1`
(mean `1/2`, not `0`); the real-valued accumulation described by the claim
yields `[0, 0]`. -/
theorem normalize_int_accumulation :
    normalize [(1 : ℚ) / 2, 1 / 2] = [1 / 2, 1 / 2] ∧
    (normalize [(1 : ℚ) / 2, 1 / 2]).sum = 1 ∧
    normalizeSpec [(1 : ℚ) / 2, 1 / 2] = [0, 0] := by
  refine ⟨by with_unfolding_all decide, by with_unfolding_all decide, by with_unfolding_all decide⟩

/-- The two ascending scans of `WaveletBPMDetector::detectPeak` after the
running maximum `m` has been computed: return the first index whose value
equals `m`; failing that, the first index whose value equals `-m`; failing
that, `-1`. -/
def peakScan (data : List ℚ) (m : ℚ) : ℤ :=
  match data.findIdx? (fun x => x == m) with
  | some i => (i : ℤ)
  | none =>
    match data.findIdx? (fun x => x == -m) with
    | some i => (i : ℤ)
    | none => -1

/-- The running maximum `max = std::max(max, std::abs(x))` of
`WaveletBPMDetector::detectPeak`, folded from the seed `a`. -/
def maxAbsFold (a : ℚ) (data : List ℚ) : ℚ :=
  data.foldl (fun acc x => max acc |x|) a

/-- Embedding of `WaveletBPMDetector::detectPeak`.  The running maximum is
seeded with `DBL_MIN` (`double max = DBL_MIN;`), the smallest positive
normalized double, not with an identity element of `max`. -/
def detectPeak (data : List ℚ) : ℤ :=
  peakScan data (maxAbsFold DBL_MIN data)

/-- Peak detection as the claim describes it: `m` is the maximum absolute
value over the searched range (the fold of `max` over the absolute values from
a zero seed), followed by the same two ascending scans.  This follows the
wording of the spec, for comparison with the source's `detectPeak`. -/
def detectPeakSpec (data : List ℚ) : ℤ :=
  peakScan data (maxAbsFold 0 data)

theorem le_maxAbsFold (a : ℚ) (data : List ℚ) : a ≤ maxAbsFold a data := by
  induction data generalizing a with
  | nil => exact le_rfl
  | cons x xs ih => exact le_trans (le_max_left a |x|) (ih (max a |x|))

theorem abs_mem_le_maxAbsFold (a : ℚ) {x : ℚ} {data : List ℚ} (hx : x ∈ data) :
    |x| ≤ maxAbsFold a data := by
  induction data generalizing a with
  | nil => cases hx
  | cons y ys ih =>
    rcases List.mem_cons.mp hx with hxy | hmem
    · subst hxy
      exact le_trans (le_max_right a |x|) (le_maxAbsFold (max a |x|) ys)
    · exact ih (max a |y|) hmem

theorem maxAbsFold_eq_max_seed (data : List ℚ) :
    ∀ a : ℚ, 0 ≤ a → maxAbsFold a data = max a (maxAbsFold 0 data) := by
  induction data with
  | nil => intro a ha; simp [maxAbsFold, max_eq_left ha]
  | cons x xs ih =>
    intro a ha
    have hx : (0 : ℚ) ≤ |x| := abs_nonneg x
    have h1 : maxAbsFold a (x :: xs) = maxAbsFold (max a |x|) xs := rfl
    have h2 : maxAbsFold 0 (x :: xs) = maxAbsFold |x| xs := by
      simp [maxAbsFold, max_eq_right hx]
    rw [h1, h2, ih (max a |x|) (le_trans hx (le_max_right a |x|)), ih |x| hx,
      max_assoc]

theorem DBL_MIN_nonneg : (0 : ℚ) ≤ DBL_MIN := by
  with_unfolding_all decide

/-- C3 (amended): whenever some element of the data has absolute value at
least `DBL_MIN`, the `DBL_MIN` seed of the running maximum is dominated and
`detectPeak` behaves exactly as the claim describes: it computes the maximum
absolute value `m` and scans ascending for the first positive match `m`,
falling back to the first match of `-m`.  (Without such an element — e.g. on
all-zero data — the code instead returns `-1`.) -/
theorem detectPeak_eq_spec_of_big (data : List ℚ)
    (hx : ∃ x ∈ data, DBL_MIN ≤ |x|) : detectPeak data = detectPeakSpec data := by
  obtain ⟨x, hmem, hge⟩ := hx
  have hfold : maxAbsFold DBL_MIN data = maxAbsFold 0 data := by
    rw [maxAbsFold_eq_max_seed data DBL_MIN DBL_MIN_nonneg]
    exact max_eq_right (le_trans hge (abs_mem_le_maxAbsFold 0 hmem))
  show peakScan data (maxAbsFold DBL_MIN data) = peakScan data (maxAbsFold 0 data)
  rw [hfold]

/-- C3 (counterexample): on the one-element data `[0]` the claim's procedure
returns index 0 (the maximum absolute value is `0` and `data[0] = 0` is a
positive match), but the code returns `-1`, because its running maximum is
seeded with `DBL_MIN > 0` which no element matches. -/
theorem detectPeak_all_zero_cex :
    detectPeak [(0 : ℚ)] = -1 ∧ detectPeakSpec [(0 : ℚ)] = 0 := by
  refine ⟨by with_unfolding_all decide, by with_unfolding_all decide⟩

/-- C3 (witness): the amended theorem applied to the two example inputs of the
claim, whose maximum absolute value 5 dominates `DBL_MIN`: `[2,-5,5,1]` gives
index 2 (first positive match) and `[2,-5,-5,1]` gives index 1 (first negative
match). -/
theorem detectPeak_eq_spec_witness :
    detectPeak [(2 : ℚ), -5, 5, 1] = 2 ∧ detectPeak [(2 : ℚ), -5, -5, 1] = 1 := by
  have h1 := detectPeak_eq_spec_of_big [(2 : ℚ), -5, 5, 1]
    ⟨2, by with_unfolding_all decide, by with_unfolding_all decide⟩
  have h2 := detectPeak_eq_spec_of_big [(2 : ℚ), -5, -5, 1]
    ⟨2, by with_unfolding_all decide, by with_unfolding_all decide⟩
  rw [h1, h2]
  refine ⟨by with_unfolding_all decide, by with_unfolding_all decide⟩

/-- One entry `correlation[k]` of `WaveletBPMDetector::correlate`: the inner
loop runs `i` over `[0, n)` and adds `data[i] * data[k + i]` whenever
`k + i < n`, starting from the zero-initialized entry. -/
def correlateEntry (data : List ℚ) (k : ℕ) : ℚ :=
  (List.range data.length).foldl
    (fun acc i =>
      if k + i < data.length then acc + data.getD i 0 * data.getD (k + i) 0 else acc)
    0

/-- Embedding of `WaveletBPMDetector::correlate`: the outer loop fills
`correlation[k]` for every `k` in `[0, n)`. -/
def correlate (data : List ℚ) : List ℚ :=
  (List.range data.length).map (correlateEntry data)

theorem foldl_ite_add (g : ℕ → ℚ) (p : ℕ → Prop) [DecidablePred p] :
    ∀ (l : List ℕ) (a : ℚ),
      l.foldl (fun acc i => if p i then acc + g i else acc) a
        = a + (l.map (fun i => if p i then g i else 0)).sum := by
  intro l
  induction l with
  | nil => intro a; simp
  | cons x xs ih =>
    intro a
    by_cases hx : p x
    · simp [List.foldl_cons, hx, ih, add_assoc]
    · simp [List.foldl_cons, hx, ih]

theorem range_map_sum (n : ℕ) (g : ℕ → ℚ) :
    ((List.range n).map g).sum = ∑ i ∈ Finset.range n, g i := by
  induction n with
  | zero => simp
  | succ m ih => rw [List.range_succ]; simp [ih, Finset.sum_range_succ]

theorem sum_range_guard (n k : ℕ) (f : ℕ → ℚ) :
    (∑ i ∈ Finset.range n, if k + i < n then f i else 0)
      = ∑ i ∈ Finset.range (n - k), f i := by
  rw [← Finset.sum_filter]
  refine Finset.sum_congr ?_ (fun i _ => rfl)
  ext i
  simp only [Finset.mem_filter, Finset.mem_range]
  omega

theorem getD_map_range (f : ℕ → ℚ) {n k : ℕ} (hk : k < n) :
    ((List.range n).map f).getD k 0 = f k := by
  rw [List.getD_eq_getElem?_getD, List.getElem?_map, List.getElem?_range hk]
  rfl

theorem getD_replicate_zero (n i : ℕ) : (List.replicate n (0 : ℚ)).getD i 0 = 0 := by
  rw [List.getD_eq_getElem?_getD, List.getElem?_replicate]
  split <;> rfl

theorem correlateEntry_replicate_zero (n k : ℕ) :
    correlateEntry (List.replicate n (0 : ℚ)) k = 0 := by
  rw [correlateEntry, foldl_ite_add, zero_add, range_map_sum]
  refine Finset.sum_eq_zero (fun i _ => ?_)
  simp [getD_replicate_zero]

/-- C4: `correlate` maps an input of length `n` to the length-`n` sequence with
`y[k] = Σ_{i : i + k < n} x[i] · x[i + k]`; all-zero input of any length gives
all-zero output, and `[1,0,0,0]` gives `[1,0,0,0]`. -/
theorem correlate_matches_claim :
    (∀ data : List ℚ,
      (correlate data).length = data.length ∧
      ∀ k, k < data.length →
        (correlate data).getD k 0
          = ∑ i ∈ Finset.range (data.length - k),
              data.getD i 0 * data.getD (i + k) 0) ∧
    (∀ n : ℕ, correlate (List.replicate n 0) = List.replicate n 0) ∧
    correlate [1, 0, 0, 0] = [(1 : ℚ), 0, 0, 0] := by
  refine ⟨fun data => ⟨by simp [correlate], fun k hk => ?_⟩, fun n => ?_,
    by with_unfolding_all decide⟩
  · rw [correlate, getD_map_range _ hk, correlateEntry,
      foldl_ite_add (fun i => data.getD i 0 * data.getD (k + i) 0)
        (fun i => k + i < data.length),
      zero_add, range_map_sum, sum_range_guard]
    exact Finset.sum_congr rfl (fun i _ => by rw [Nat.add_comm k i])
  · have hmap : correlate (List.replicate n (0 : ℚ))
        = (List.range n).map (correlateEntry (List.replicate n 0)) := by
      unfold correlate
      rw [List.length_replicate]
    rw [hmap]
    have h0 : correlateEntry (List.replicate n (0 : ℚ)) = fun _ => (0 : ℚ) :=
      funext (fun k => correlateEntry_replicate_zero n k)
    rw [h0, List.map_const', List.length_range]

/-- C4 (witness): the general formula evaluated at `data = [1,0,0,0]`,
`k = 0`. -/
theorem correlate_matches_claim_witness :
    (correlate [(1 : ℚ), 0, 0, 0]).getD 0 0
      = ∑ i ∈ Finset.range (([(1 : ℚ), 0, 0, 0] : List ℚ).length - 0),
          ([(1 : ℚ), 0, 0, 0] : List ℚ).getD i 0
            * ([(1 : ℚ), 0, 0, 0] : List ℚ).getD (i + 0) 0 :=
  (correlate_matches_claim.1 [(1 : ℚ), 0, 0, 0]).2 0 (by decide)

/-- Error taxonomy of the specification (only the variants the embedded code
paths can produce are needed here). -/
inductive DetectorError where
  | insufficientData
  | noData
deriving DecidableEq

/-- Embedding of `WaveletBPMDetector::add`: `data[i] += plus[i]` for every
index of `data`.  When `plus` is shorter than `data` the C++ read `plus[i]` is
out of bounds; the total embedding reads the default `0` there (in the actual
pipeline both operands have equal length). -/
def add (data plus : List ℚ) : List ℚ :=
  (List.range data.length).map (fun i => data.getD i 0 + plus.getD i 0)

/-- The per-level envelope of `computeWindowBpm`:
`dC = normalize(abs(undersample(detail, pace)))`. -/
def envOf (detail : List ℚ) (pace : ℕ) : List ℚ :=
  normalize (absVec (undersample detail pace))

/-- One iteration of the level loop of `computeWindowBpm`: at `loop == 0` the
freshly built envelope replaces `dCSum` (a whole-vector assignment), otherwise
it is added elementwise; afterwards `pace >>= 1`. -/
def envLoopStep (decomp : List (List ℚ × List ℚ)) (st : List ℚ × ℕ) (loop : ℕ) :
    List ℚ × ℕ :=
  ((if loop = 0 then envOf (decomp.getD loop ([], [])).2 st.2
    else add st.1 (envOf (decomp.getD loop ([], [])).2 st.2)), st.2 / 2)

/-- The composite envelope `dCSum` built by `computeWindowBpm`: the level loop
starts from the zero vector of length `dCMinLength = L0 / 8 + 1` with
`pace = 8`, and afterwards the envelope of the final approximation
(`aC = normalize(abs(decomp[levels-1].first))`, no undersampling) is added. -/
def compositeEnvelope (decomp : List (List ℚ × List ℚ)) : List ℚ :=
  add
    (((List.range 4).foldl (envLoopStep decomp)
        (List.replicate ((decomp.getD 0 ([], [])).2.length / 8 + 1) 0, 8)).1)
    (normalize (absVec (decomp.getD 3 ([], [])).1))

/-- Modelled from the spec: the wavelet decomposition lives in
`daubechies8.h`, which is not part of the repository.  Following section 4.1,
one level convolves the current approximation with an 8-tap analysis filter
`f` and downsamples by 2; the boundary is handled by circular extension.  The
output length is half the input length (rounded down). -/
def convolveDown (f : List ℚ) (x : List ℚ) : List ℚ :=
  (List.range (x.length / 2)).map (fun i =>
    (List.range f.length).foldl
      (fun acc j => acc + f.getD j 0 * x.getD ((2 * i + j) % x.length) 0) 0)

/-- Modelled from the spec: the cascade of section 4.1 — level 0 consumes the
raw window, each later level consumes the previous approximation, and every
level records the pair (approximation, detail). -/
def decomposeLevels (h g : List ℚ) : ℕ → List ℚ → List (List ℚ × List ℚ)
  | 0, _ => []
  | n + 1, x =>
    (convolveDown h x, convolveDown g x) :: decomposeLevels h g n (convolveDown h x)

/-- Modelled from the spec: `decompose(samples, levels=4)` fails with
`InsufficientData` if the input length cannot support 4 successive halvings
without producing an empty sequence, and otherwise returns the 4-level
decomposition. -/
def decompose (h g : List ℚ) (data : List ℚ) :
    Except DetectorError (List (List ℚ × List ℚ)) :=
  if data.length / 2 / 2 / 2 / 2 = 0 then .error .insufficientData
  else .ok (decomposeLevels h g 4 data)

/-- Modelled from the spec: rational approximations (8 decimal digits) of the
Daubechies-8 low-pass analysis taps.  The exact taps are irrational, and
`daubechies8.h` is not in the repository; the general theorems below quantify
over arbitrary filters, these constants only instantiate closed statements. -/
def d8h : List ℚ :=
  [23037781 / 100000000, 71484657 / 100000000, 63088077 / 100000000,
   -2798377 / 100000000, -18703481 / 100000000, 3084138 / 100000000,
   3288301 / 100000000, -1059740 / 100000000]

/-- Modelled from the spec: the matching high-pass analysis taps (quadrature
mirror of `d8h`). -/
def d8g : List ℚ :=
  [-1059740 / 100000000, -3288301 / 100000000, 3084138 / 100000000,
   18703481 / 100000000, -2798377 / 100000000, -63088077 / 100000000,
   71484657 / 100000000, -23037781 / 100000000]

/-- The lag lower bound `minIndex = (int)(60.0 / 220.0 * sampleRate / 8.0)` of
`computeWindowBpm`. -/
def minIndexOf (rate : ℚ) : ℤ := cppIntTrunc (60 / 220 * rate / 8)

/-- The lag upper bound `maxIndex = (int)(60.0 / 40.0 * sampleRate / 8.0)` of
`computeWindowBpm`. -/
def maxIndexOf (rate : ℚ) : ℤ := cppIntTrunc (60 / 40 * rate / 8)

/-- The slice `correlatedTmp = correlated[minIndex, maxIndex)` of
`computeWindowBpm`. -/
def corrTmpOf (decomp : List (List ℚ × List ℚ)) (rate : ℚ) : List ℚ :=
  ((correlate (compositeEnvelope decomp)).drop (minIndexOf rate).toNat).take
    (maxIndexOf rate - minIndexOf rate).toNat

/-- The absolute lag `realLocation = minIndex + location` of
`computeWindowBpm`, where `location = detectPeak(correlatedTmp)`. -/
def realLocationOf (decomp : List (List ℚ × List ℚ)) (rate : ℚ) : ℤ :=
  minIndexOf rate + detectPeak (corrTmpOf decomp rate)

/-- The final expression of `computeWindowBpm`:
`60.0 / realLocation * (sampleRate / maxDecimation)`. -/
def bpmOfLag (rate : ℚ) (lag : ℤ) : ℚ :=
  60 / (lag : ℚ) * (rate / 8)

/-- The value `computeWindowBpm` produces from a successful decomposition. -/
def computeFromDecomp (decomp : List (List ℚ × List ℚ)) (rate : ℚ) : ℚ :=
  bpmOfLag rate (realLocationOf decomp rate)

/-- Embedding of `WaveletBPMDetector::computeWindowBpm`: decompose the window
(the decomposition is spec-modelled, see `decompose`), then run the envelope,
autocorrelation and peak-detection pipeline. -/
def computeWindowBpm (h g : List ℚ) (rate : ℚ) (data : List ℚ) :
    Except DetectorError ℚ :=
  match decompose h g data with
  | .error e => .error e
  | .ok decomp => .ok (computeFromDecomp decomp rate)

theorem undersampleImpl_fst_length (data : List ℚ) (pace : ℕ) :
    (undersampleImpl data pace).1.length = data.length / pace := by
  unfold undersampleImpl
  generalize List.range data.length = l
  suffices h : ∀ st : List ℚ × Bool,
      ((l.foldl
        (fun st i =>
          if i < st.1.length then (st.1.set i (data.getD i 0), st.2) else (st.1, true))
        st).1).length = st.1.length by
    rw [h]
    exact List.length_replicate _ _
  intro st
  induction l generalizing st with
  | nil => rfl
  | cons x xs ih =>
    rw [List.foldl_cons, ih]
    by_cases hx : x < st.1.length
    · simp [hx]
    · simp [hx]

theorem length_undersample (data : List ℚ) (pace : ℕ) :
    (undersample data pace).length = data.length / pace :=
  undersampleImpl_fst_length data pace

theorem length_add (data plus : List ℚ) : (add data plus).length = data.length := by
  simp [add]

theorem envOf_length (detail : List ℚ) (pace : ℕ) :
    (envOf detail pace).length = detail.length / pace := by
  simp [envOf, normalize, absVec, length_undersample]

/-- C5 (amended): for every decomposition the composite envelope has length
exactly `⌊level0DetailLength / 8⌋`, without the claimed `+ 1`: the buffer
`dCSum` allocated with `dCMinLength = ⌊L0 / 8⌋ + 1` entries is discarded when
the level loop's first iteration assigns `dCSum = dC`. -/
theorem compositeEnvelope_length (decomp : List (List ℚ × List ℚ)) :
    (compositeEnvelope decomp).length = (decomp.getD 0 ([], [])).2.length / 8 := by
  have h4 : List.range 4 = [0, 1, 2, 3] := rfl
  rw [compositeEnvelope, length_add, h4]
  simp only [List.foldl_cons, List.foldl_nil]
  simp [envLoopStep, length_add, envOf_length]

/-- C5 (counterexample): on the decomposition of a 16-sample window the
level-0 detail has 8 entries, so the composite envelope has length
`⌊8 / 8⌋ = 1`, while the claimed length `minLen = ⌊8 / 8⌋ + 1` is 2. -/
theorem compositeEnvelope_plus_one_cex :
    (compositeEnvelope (decomposeLevels d8h d8g 4 (List.replicate 16 0))).length = 1 ∧
    ((decomposeLevels d8h d8g 4 (List.replicate 16 0)).getD 0 ([], [])).2.length / 8
      + 1 = 2 := by
  refine ⟨by with_unfolding_all rfl, by with_unfolding_all rfl⟩

/-- C7: a window that cannot support 4 successive halvings without producing
an empty sequence makes `computeWindowBpm` fail with `InsufficientData` (the
decomposition is spec-modelled, see `decompose`). -/
theorem computeWindowBpm_insufficient (h g : List ℚ) (rate : ℚ) (data : List ℚ)
    (hlen : data.length / 2 / 2 / 2 / 2 = 0) :
    computeWindowBpm h g rate data = .error .insufficientData := by
  unfold computeWindowBpm decompose
  rw [if_pos hlen]

/-- C7 (witness): a 5-sample window (whose fourth halving is empty) fails with
`InsufficientData`. -/
theorem computeWindowBpm_insufficient_witness :
    (List.replicate 5 (0 : ℚ)).length / 2 / 2 / 2 / 2 = 0 ∧
    computeWindowBpm d8h d8g 44100 (List.replicate 5 0) = .error .insufficientData :=
  ⟨by decide, computeWindowBpm_insufficient d8h d8g 44100 (List.replicate 5 0) (by decide)⟩

/-- C6 (amended): the BPM estimate is strictly positive whenever the sample
rate is positive and the detected absolute lag `minIndex + location` is at
least 1.  (Without that guard the value can be zero or negative, see the
counterexample.) -/
theorem computeFromDecomp_pos (decomp : List (List ℚ × List ℚ)) (rate : ℚ)
    (hrate : 0 < rate) (hlag : 1 ≤ realLocationOf decomp rate) :
    0 < computeFromDecomp decomp rate := by
  unfold computeFromDecomp bpmOfLag
  have hl : (0 : ℚ) < ((realLocationOf decomp rate : ℤ) : ℚ) := by
    exact_mod_cast lt_of_lt_of_le Int.zero_lt_one hlag
  exact mul_pos (div_pos (by norm_num) hl) (div_pos hrate (by norm_num))

/-- C6 (witness): a decomposition whose level-0 detail begins `4, 1` at
sample rate 40 gives `minIndex = 1`, peak location 0, absolute lag 1, and the
positive estimate `60 / 1 * (40 / 8) = 300`. -/
theorem computeFromDecomp_pos_witness :
    1 ≤ realLocationOf
        [(([] : List ℚ), [4, 1] ++ List.replicate 14 0),
         ([], List.replicate 8 0), ([], List.replicate 4 0),
         (List.replicate 2 0, List.replicate 2 0)] 40 ∧
    0 < computeFromDecomp
        [(([] : List ℚ), [4, 1] ++ List.replicate 14 0),
         ([], List.replicate 8 0), ([], List.replicate 4 0),
         (List.replicate 2 0, List.replicate 2 0)] 40 :=
  ⟨by with_unfolding_all decide,
   computeFromDecomp_pos _ 40 (by norm_num) (by with_unfolding_all decide)⟩

/-- C6 (counterexample): at sample rate 20 an all-zero 16-sample window is
accepted (16 supports 4 halvings) but yields the estimate `-150`: the
correlated window is all zero, `detectPeak` returns `-1`, `minIndex = 0`, so
the absolute lag is `-1` and `60 / (-1) * (20 / 8) = -150`, which is not a
positive real. -/
theorem computeWindowBpm_negative_cex :
    computeWindowBpm d8h d8g 20 (List.replicate 16 0) = .ok (-150) ∧
    ¬ (0 : ℚ) < -150 := by
  refine ⟨by with_unfolding_all rfl, by norm_num⟩

/-- Modelled from the spec: the median aggregation of the BPM history.  The
class documentation in `wavelet_bpm_detector.h` promises that the final value
is the median of the per-window values, but no history/median code is in the
repository; section 4.6 specifies `currentEstimate`: `NoData` on an empty
history, the middle element of a sorted copy for an odd count, and the
arithmetic mean of the two central elements for an even count. -/
def currentEstimate (hist : List ℚ) : Except DetectorError ℚ :=
  if hist.isEmpty then .error .noData
  else
    let s := List.insertionSort (· ≤ ·) hist
    if s.length % 2 = 1 then .ok (s.getD (s.length / 2) 0)
    else .ok ((s.getD (s.length / 2 - 1) 0 + s.getD (s.length / 2) 0) / 2)

/-- C8: `currentEstimate` returns the median of the history: for any sorted
permutation `s` of a non-empty history, the result is the middle element of
`s` for an odd count and the mean of the two central elements for an even
count; in particular `[80,90,100]` gives 90 and `[80,90,100,110]` gives 95. -/
theorem currentEstimate_median :
    (∀ hist s : List ℚ, hist ≠ [] → s.Perm hist → s.Sorted (· ≤ ·) →
      currentEstimate hist
        = .ok (if s.length % 2 = 1 then s.getD (s.length / 2) 0
            else (s.getD (s.length / 2 - 1) 0 + s.getD (s.length / 2) 0) / 2)) ∧
    currentEstimate [80, 90, 100] = .ok 90 ∧
    currentEstimate [80, 90, 100, 110] = .ok 95 := by
  refine ⟨fun hist s hne hperm hsorted => ?_,
    by with_unfolding_all rfl, by with_unfolding_all rfl⟩
  have hs : s = List.insertionSort (· ≤ ·) hist :=
    List.eq_of_perm_of_sorted (hperm.trans (List.perm_insertionSort _ hist).symm)
      hsorted (List.sorted_insertionSort _ hist)
  subst hs
  have hne2 : hist.isEmpty = false := by
    cases hist with
    | nil => exact absurd rfl hne
    | cons a l => rfl
  have hstep : currentEstimate hist
      = (if (List.insertionSort (· ≤ ·) hist).length % 2 = 1
          then Except.ok ((List.insertionSort (· ≤ ·) hist).getD
            ((List.insertionSort (· ≤ ·) hist).length / 2) 0)
          else Except.ok (((List.insertionSort (· ≤ ·) hist).getD
              ((List.insertionSort (· ≤ ·) hist).length / 2 - 1) 0
            + (List.insertionSort (· ≤ ·) hist).getD
              ((List.insertionSort (· ≤ ·) hist).length / 2) 0) / 2)) := by
    unfold currentEstimate
    rw [hne2]
    rfl
  rw [hstep]
  split <;> rename_i hc <;> simp [hc]

/-- C8 (witness): the median property applied to the history `[80,90,100]`
with its sorted copy `[80,90,100]`; the right-hand side evaluates to 90. -/
theorem currentEstimate_median_witness :
    currentEstimate [80, 90, 100]
      = .ok (if ([(80 : ℚ), 90, 100] : List ℚ).length % 2 = 1
          then ([(80 : ℚ), 90, 100] : List ℚ).getD
            (([(80 : ℚ), 90, 100] : List ℚ).length / 2) 0
          else (([(80 : ℚ), 90, 100] : List ℚ).getD
              (([(80 : ℚ), 90, 100] : List ℚ).length / 2 - 1) 0
            + ([(80 : ℚ), 90, 100] : List ℚ).getD
              (([(80 : ℚ), 90, 100] : List ℚ).length / 2) 0) / 2) :=
  currentEstimate_median.1 [80, 90, 100] [80, 90, 100] (by decide)
    (List.Perm.refl _) (by decide)

/-- State observed by the `audio_data` constructor: the return codes of
`snd_pcm_open`, `snd_pcm_hw_params` and `snd_pcm_prepare`, and the format
(already converted to bits by the switch, `-1` when unrecognized) and rate
reported back by ALSA.  The `snd_pcm_hw_params_set_*` negotiation calls have
their return values ignored by the source, so they do not appear. -/
structure AlsaEnv where
  openErr : ℤ
  hwParamsErr : ℤ
  prepareErr : ℤ
  gotFormat : ℤ
  gotRate : ℕ

/-- Outcome of running the `audio_data` constructor: either the process was
terminated via `exit(EXIT_FAILURE)` or the object was initialized.  No error
value is ever returned to the caller — the constructor has no error channel. -/
inductive AudioInitOutcome where
  | exited
  | initialized (format : ℤ) (rate : ℕ)
deriving DecidableEq

/-- Embedding of `audio_data::audio_data` (src/audio_data.cpp): each failed
step prints to stderr and calls `exit(EXIT_FAILURE)`; only when every step
succeeds and a usable format and rate were obtained does the constructor
return normally. -/
def audioDataCtor (env : AlsaEnv) : AudioInitOutcome :=
  if env.openErr < 0 then .exited
  else if env.hwParamsErr < 0 then .exited
  else if env.prepareErr < 0 then .exited
  else if env.gotFormat = -1 ∨ env.gotRate = 0 then .exited
  else .initialized env.gotFormat env.gotRate

/-- C9 (amended): every acquisition failure — device open failure, hardware
parameter (negotiation) failure, or prepare failure — terminates the process
with `EXIT_FAILURE`; no error value is surfaced to the caller. -/
theorem audioDataCtor_exits (env : AlsaEnv)
    (hfail : env.openErr < 0 ∨ env.hwParamsErr < 0 ∨ env.prepareErr < 0) :
    audioDataCtor env = .exited := by
  unfold audioDataCtor
  split_ifs with h1 h2 h3 h4 <;> try rfl
  rcases hfail with h | h | h
  · exact absurd h h1
  · exact absurd h h2
  · exact absurd h h3

/-- C9 (witness): a hardware-parameter failure (`snd_pcm_hw_params`
returning `-5`) terminates the process. -/
theorem audioDataCtor_exits_witness :
    ((⟨0, -5, 0, 16, 44100⟩ : AlsaEnv).hwParamsErr < 0) ∧
    audioDataCtor ⟨0, -5, 0, 16, 44100⟩ = .exited :=
  ⟨by decide, audioDataCtor_exits _ (Or.inr (Or.inl (by decide)))⟩

/-- C9 (counterexample): when `snd_pcm_open` fails (returns `-1`) the
constructor terminates the process instead of surfacing an error value to its
caller, contradicting the claim. -/
theorem audioDataCtor_open_failure_cex :
    ((⟨-1, 0, 0, 16, 44100⟩ : AlsaEnv).openErr < 0) ∧
    audioDataCtor ⟨-1, 0, 0, 16, 44100⟩ = .exited :=
  ⟨by decide, by decide⟩

end MusicLED
